import Mathlib

/-!
Verification development for the ensemble email-parser repository.

This file gives a shallow embedding of the reconciliation engine in
`src/email_parser/ensemble_parser.py` (class `EnsembleParser`), together with
the pieces of `src/email_parser/base.py` (data model) and
`src/email_parser/utils.py` (`fuzzy_match_ebitda`) that it uses, and proves
properties of the embedded functions.

Modelling conventions:
- Python `float` is modelled as `ℚ` (the weights and the examples use exact
  decimal constants; no rounding behaviour is asserted by any property).
- Python `Optional[T]` is `Option T`; Python truthiness of an optional string
  is `strTruthy` (`None` and `""` are falsy), of an optional float is
  `qTruthy` (`None` and `0.0` are falsy).
- `datetime` values are opaque (`Nat`); a `datetime` object is always truthy.
- `pandas.Series.str.contains(pat, case=False, na=False)` is modelled as
  case-insensitive substring containment (`strContainsCI`); the regex
  interpretation of metacharacters in the pattern is not modelled (all
  properties use plain alphanumeric company names).
- log statements, `bounding_boxes`, `ebitda_options`, timing and error lists
  are dropped: the reconciliation code never reads them.
-/

/-- Truthiness of an optional string: Python `if s:` — `None` and `""` are
falsy. -/
def strTruthy : Option String → Bool
  | some s => s ≠ ""
  | none => false

/-- Truthiness of an optional rational: Python `if x:` — `None` and `0.0` are
falsy. -/
def qTruthy : Option ℚ → Bool
  | some q => q ≠ 0
  | none => false

/-- `base.FieldOption`: one candidate value for a field with a confidence
score.  The `source` and `raw_text` provenance fields are never read by the
reconciler and are dropped.  `value` is `Any` in the source, and may be null;
for the location/company/sector fields it is a string. -/
structure FieldOption where
  value : Option String
  confidence : ℚ
deriving DecidableEq, Repr

/-- `base.InvestmentOpportunity`: aggregated fields for one document as seen
by one extractor.  `bounding_boxes` and `ebitda_options` are never read by
`_combine_results` and are dropped. -/
structure InvestmentOpportunity where
  source_domain : Option String := none
  recipient : Option String := none
  hq_location : Option String := none
  ebitda_millions : Option ℚ := none
  date : Option Nat := none
  company_name : Option String := none
  sector : Option String := none
  raw_ebitda_text : Option String := none
  location_options : List FieldOption := []
  company_options : List FieldOption := []
  sector_options : List FieldOption := []
deriving DecidableEq, Repr

/-- `base.ParserResult`: a parser outcome envelope.  `confidence`,
`processing_time_seconds`, `raw_response` and `errors` are never read by
`_combine_results` and are dropped. -/
structure ParserResult where
  opportunity : InvestmentOpportunity
  parser_name : String
  extraction_source : String
deriving DecidableEq, Repr

/-- A value of the `LTM EBITDA ($M)` column of the historical table: pandas
reads it either as a number or as a string. -/
inductive HistVal where
  | hnum (q : ℚ)
  | hstr (s : String)
deriving DecidableEq, Repr

/-- A row of the historical table: the `Company / Project Name` column and
the `LTM EBITDA ($M)` column. -/
abbrev HistRow := String × HistVal

/-- The normalized document handed to every extractor.  Its contents are
opaque to the reconciliation engine. -/
structure EmailData where
  body : String := ""
deriving DecidableEq, Repr

/-- One configured extractor: `parse_data` plus the `extraction_source`
attribute read by `getattr(parser, "extraction_source", "body")`.  A raising
extractor is modelled by `Except.error`. -/
structure Extractor where
  extract : EmailData → Except String InvestmentOpportunity
  extraction_source : String := "body"

/-- The mutable state of an `EnsembleParser` instance that
`_combine_results` can see: only the historical table loaded at
construction (`self.historical_data`). -/
structure EnsembleState where
  historical_data : Option (List HistRow)
deriving DecidableEq, Repr

/-- `utils.fuzzy_match_ebitda`: two EBITDA values match iff both are non-null
and within `tolerance` of each other. -/
def fuzzy_match_ebitda (predicted actual : Option ℚ) (tolerance : ℚ) : Bool :=
  match predicted, actual with
  | some p, some a => |p - a| ≤ tolerance
  | _, _ => false

/-- One step of the first-fit clustering loop of `_fuzzy_consensus`: the value
joins the first cluster whose first member (`cluster[0]`) fuzzy-matches it,
else a new singleton cluster is appended.  Clusters are nonempty by
construction, so the `head?` of a cluster is always present. -/
def fuzzyInsert (tolerance : ℚ) (v : ℚ) : List (List ℚ) → List (List ℚ)
  | [] => [[v]]
  | c :: cs =>
    if fuzzy_match_ebitda (some v) c.head? tolerance then (c ++ [v]) :: cs
    else c :: fuzzyInsert tolerance v cs

/-- The cluster list built by `_fuzzy_consensus` over the valid values. -/
def fuzzyClusters (tolerance : ℚ) (valid : List ℚ) : List (List ℚ) :=
  valid.foldl (fun cs v => fuzzyInsert tolerance v cs) []

/-- One comparison step of Python `max(clusters, key=len)`: a later cluster
replaces the running best only when strictly longer. -/
def lcStep (acc : Option (List ℚ)) (c : List ℚ) : Option (List ℚ) :=
  match acc with
  | none => some c
  | some b => if c.length > b.length then some c else some b

/-- Python `max(clusters, key=len)`: the first cluster of maximal length. -/
def largestCluster (cs : List (List ℚ)) : Option (List ℚ) :=
  cs.foldl lcStep none

/-- `EnsembleParser._fuzzy_consensus`: cluster the non-null values first-fit,
then return the mean of the largest cluster when its size is a strict
majority of the valid values, else `None`. -/
def fuzzyConsensus (values : List (Option ℚ)) (tolerance : ℚ) : Option ℚ :=
  let valid := values.filterMap id
  if valid.isEmpty then none
  else
    match largestCluster (fuzzyClusters tolerance valid) with
    | none => none
    | some c =>
      if c.length * 2 > valid.length then some (c.sum / c.length) else none

/-- `Counter(valid).most_common(1)[0]`: the first-encountered value of
maximal multiplicity, with its count (`most_common` is stable, so ties keep
insertion order). -/
def mostCommon (valid : List ℚ) : Option (ℚ × Nat) :=
  valid.foldl (fun acc v =>
    match acc with
    | none => some (v, valid.count v)
    | some (bv, bc) =>
      if valid.count v > bc then some (v, valid.count v) else some (bv, bc)) none

/-- `EnsembleParser._majority_vote`: the most common non-null value, returned
only when its count is a strict majority (`> len(valid)/2`) of the valid
values. -/
def majorityVote (values : List (Option ℚ)) : Option ℚ :=
  let valid := values.filterMap id
  match mostCommon valid with
  | none => none
  | some (v, c) => if c * 2 > valid.length then some v else none

/-- The `parser_weights` table shared by `_confidence_weighted` and
`_select_best_field`; `dict.get(name, 0.5)` defaults to `0.5`. -/
def parserWeight (name : String) : ℚ :=
  if name = "LLM" then 1
  else if name = "Vision" then 9/10
  else if name = "NER" then 7/10
  else if name = "OCR" then 1/2
  else 1/2

/-- The `source_weights` table shared by `_confidence_weighted` and
`_select_best_field`; `dict.get(source, 1.0)` defaults to `1.0`. -/
def sourceWeight (source : String) : ℚ :=
  if source = "attachment" then 6/5
  else if source = "body" then 1
  else if source = "both" then 11/10
  else 1

/-- The score `_confidence_weighted` assigns to one outcome: parser weight ×
source weight, with a ×1.1 bonus when `raw_ebitda_text` is truthy. -/
def cwScore (name : String) (result : ParserResult) : ℚ :=
  parserWeight name * sourceWeight result.extraction_source *
    (if strTruthy result.opportunity.raw_ebitda_text then 11/10 else 1)

/-- The loop body of `_confidence_weighted`: skip null EBITDAs, replace the
running `(best_value, best_score, best_source)` on strictly greater score. -/
def cwStep (acc : Option ℚ × ℚ × String) (p : String × ParserResult) :
    Option ℚ × ℚ × String :=
  match p.2.opportunity.ebitda_millions with
  | none => acc
  | some e =>
    let score := cwScore p.1 p.2
    if score > acc.2.1 then (some e, score, p.1) else acc

/-- `EnsembleParser._confidence_weighted`: scan the outcomes, skipping null
EBITDAs, keeping the value (and parser name) of strictly-highest score.  The
`(score: %.2f)` suffix of the reason string is elided: no property inspects
the formatted number. -/
def confidenceWeighted (results : List (String × ParserResult)) :
    Option ℚ × String :=
  let t := results.foldl cwStep (none, 0, "")
  (t.1, t.2.2)

/-- The first outcome with the given `extraction_source` and a non-null
EBITDA, as scanned by `_source_prioritized`. -/
def firstWithSource (source : String) (results : List (String × ParserResult)) :
    Option ℚ :=
  (results.find? (fun p =>
    p.2.extraction_source = source ∧ p.2.opportunity.ebitda_millions ≠ none)).bind
    (fun p => p.2.opportunity.ebitda_millions)

/-- `EnsembleParser._source_prioritized`: first non-null EBITDA among
attachment outcomes, else among body outcomes. -/
def sourcePrioritized (results : List (String × ParserResult)) : Option ℚ :=
  match firstWithSource "attachment" results with
  | some v => some v
  | none => firstWithSource "body" results

/-- The per-outcome loop body of `_select_best_field`'s option scan: fold the
outcome's options, replacing the running `(best_value, best_combined_score)`
on strictly greater combined score. -/
def fieldStep (getOptions : InvestmentOpportunity → List FieldOption)
    (acc : Option String × ℚ) (p : String × ParserResult) : Option String × ℚ :=
  let mc := parserWeight p.1 * sourceWeight p.2.extraction_source
  (getOptions p.2.opportunity).foldl (fun acc2 o =>
    if mc * o.confidence > acc2.2 then (o.value, mc * o.confidence) else acc2) acc

/-- The option-scanning loop of `_select_best_field`: running
`(best_value, best_combined_score)`, starting at `(None, 0.0)`, replaced only
on strictly greater combined score. -/
def scanOptions (results : List (String × ParserResult))
    (getOptions : InvestmentOpportunity → List FieldOption) :
    Option String × ℚ :=
  results.foldl (fieldStep getOptions) (none, 0)

/-- The first fallback loop of `_select_best_field`: first truthy scalar
value coming from an `LLM` or `Vision` outcome. -/
def fallbackPreferred (getFallback : InvestmentOpportunity → Option String) :
    List (String × ParserResult) → Option String
  | [] => none
  | p :: ps =>
    if strTruthy (getFallback p.2.opportunity) ∧ (p.1 = "LLM" ∨ p.1 = "Vision") then
      getFallback p.2.opportunity
    else fallbackPreferred getFallback ps

/-- The last-resort fallback loop of `_select_best_field`: first truthy
scalar value from any outcome. -/
def fallbackAny (getFallback : InvestmentOpportunity → Option String) :
    List (String × ParserResult) → Option String
  | [] => none
  | p :: ps =>
    if strTruthy (getFallback p.2.opportunity) then getFallback p.2.opportunity
    else fallbackAny getFallback ps

/-- `EnsembleParser._select_best_field`: highest combined-score option, else
the preferred-extractor fallback, else the any-extractor fallback.  Dynamic
`getattr(opportunity, field_name)` access is modelled by the projection
functions `getOptions` / `getFallback`. -/
def selectBestField (results : List (String × ParserResult))
    (getOptions : InvestmentOpportunity → List FieldOption)
    (getFallback : InvestmentOpportunity → Option String) : Option String :=
  match (scanOptions results getOptions).1 with
  | some v => some v
  | none =>
    match fallbackPreferred getFallback results with
    | some v => some v
    | none => fallbackAny getFallback results

/-- Lower-cased character-level containment check modelling
`Series.str.contains(pat, case=False)` for plain (non-metacharacter)
patterns. -/
def strContainsCI (hay pat : String) : Bool :=
  let h := hay.data.map Char.toLower
  let p := pat.data.map Char.toLower
  (List.range (h.length + 1)).any (fun i => p.isPrefixOf (h.drop i))

/-- The numeric value of a decimal digit. -/
def digitVal (c : Char) : Option Nat :=
  if c.isDigit then some (c.toNat - 48) else none

/-- Parse a (possibly empty) run of decimal digits; `some 0` on the empty
run, `none` on any non-digit. -/
def digitsToNat (cs : List Char) : Option Nat :=
  cs.foldl (fun acc c =>
    match acc, digitVal c with
    | some n, some d => some (n * 10 + d)
    | _, _ => none) (some 0)

/-- Python `float(s)` restricted to plain decimal literals
(`[+-]digits[.digits]`), which is all the historical table holds; exponent
and inf/nan forms are not modelled. -/
def parseDecimal (s : String) : Option ℚ :=
  let cs := s.data
  let signed : Bool × List Char :=
    match cs with
    | '-' :: rest => (true, rest)
    | '+' :: rest => (false, rest)
    | _ => (false, cs)
  match signed.2.splitOn '.' with
  | [ip] =>
    if ip.isEmpty then none
    else (digitsToNat ip).map (fun n => if signed.1 then -(n : ℚ) else (n : ℚ))
  | [ip, fp] =>
    if ip.isEmpty ∧ fp.isEmpty then none
    else
      match digitsToNat ip, digitsToNat fp with
      | some i, some f =>
        let q : ℚ := (i : ℚ) + (f : ℚ) / ((10 : ℚ) ^ fp.length)
        some (if signed.1 then -q else q)
      | _, _ => none
  | _ => none

/-- Drop the `$` and `,` characters, as
`historical_ebitda.replace("$", "").replace(",", "")` does. -/
def stripMoney (s : String) : String :=
  ⟨s.data.filter (fun c => c ≠ '$' ∧ c ≠ ',')⟩

/-- The historical-EBITDA parsing block of `_validate_against_historical`:
a string equal to `"n.a."` is no signal, any other string is money-stripped
and parsed, an unparseable value yields `None` (the `ValueError` is caught),
a numeric cell is used as is. -/
def parseHistVal : HistVal → Option ℚ
  | .hnum q => some q
  | .hstr s => if s = "n.a." then none else parseDecimal (stripMoney s)

/-- One comparison step of `min(valid_values, key=lambda x: abs(x - h))`:
a later candidate replaces the running best only when strictly closer to the
historical value `h`. -/
def closestStep (h : ℚ) (acc : Option ℚ) (v : ℚ) : Option ℚ :=
  match acc with
  | none => some v
  | some b => if |v - h| < |b - h| then some v else some b

/-- `EnsembleParser._validate_against_historical`: look the company name up
by case-insensitive containment in the first column, parse the first matching
row's stored EBITDA, and return the valid candidate closest to it (Python
`min` keeps the first minimum on ties). -/
def validateAgainstHistorical (hist : Option (List HistRow))
    (company : Option String) (values : List (Option ℚ)) : Option ℚ :=
  match hist, company with
  | some table, some cname =>
    if cname = "" then none
    else
      match (table.filter (fun row => strContainsCI row.1 cname)).head? with
      | none => none
      | some row =>
        match parseHistVal row.2 with
        | none => none
        | some h => (values.filterMap id).foldl (closestStep h) none
  | _, _ => none

/-- `next((o.f for o in opportunities if o.f), None)`: the first truthy
value of an optional-string field. -/
def firstTruthy (l : List (Option String)) : Option String :=
  (l.filterMap (fun o =>
    match o with
    | some s => if s = "" then none else some s
    | none => none)).head?

/-- The EBITDA column of an outcome list. -/
def ebitdaValuesOf (results : List (String × ParserResult)) : List (Option ℚ) :=
  results.map (fun p => p.2.opportunity.ebitda_millions)

/-- `company_names[0] if company_names else None` over the truthy-filtered
company names, as computed inside `_combine_results`. -/
def firstTruthyCompany (results : List (String × ParserResult)) : Option String :=
  firstTruthy (results.map (fun p => p.2.opportunity.company_name))

/-- `EnsembleParser._combine_results`: the reconciliation cascade plus the
merge assembly.  Each stage is a pair `(final_ebitda, tie_break_method)`;
`final_ebitda` starts as `None` and `tie_break_method` as `"unknown"`, and
each stage mirrors one `if` block of the source in order. -/
def combineResults (hist : Option (List HistRow))
    (results : List (String × ParserResult)) (strategy : String) :
    InvestmentOpportunity :=
  let opportunities := results.map (fun p => p.2.opportunity)
  let ebitda_values := ebitdaValuesOf results
  let st0 : Option ℚ × String := (none, "unknown")
  let st1 :=
    if strategy = "all" ∨ strategy = "fuzzy" then
      let consensus := fuzzyConsensus ebitda_values (1/1000)
      if qTruthy consensus then
        (consensus, "fuzzy_consensus (values within ±$1K)")
      else st0
    else st0
  let st2 :=
    if st1.1 = none ∧ (strategy = "all" ∨ strategy = "majority") then
      let mv := majorityVote ebitda_values
      (mv, if qTruthy mv then "majority_vote" else st1.2)
    else st1
  let st3 :=
    if st2.1 = none ∧ (strategy = "all" ∨ strategy = "weighted") then
      let w := confidenceWeighted results
      (w.1, if qTruthy w.1 then "confidence_selection: " ++ w.2 else st2.2)
    else st2
  let st4 :=
    if st3.1 = none ∧ (strategy = "all" ∨ strategy = "prioritized") then
      let v := sourcePrioritized results
      (v, if qTruthy v then "source_prioritized (attachment > body)" else st3.2)
    else st3
  let st5 :=
    if st4.1 = none ∧ (strategy = "all" ∨ strategy = "historical") then
      let v := validateAgainstHistorical hist (firstTruthyCompany results)
        ebitda_values
      (v, if qTruthy v then "historical_validation" else st4.2)
    else st4
  let st6 :=
    if st5.1 = none then
      match (ebitda_values.filterMap id).head? with
      | some v => (some v, "first_available")
      | none => st5
    else st5
  { source_domain := firstTruthy (opportunities.map (·.source_domain))
    recipient := firstTruthy (opportunities.map (·.recipient))
    hq_location := selectBestField results (·.location_options) (·.hq_location)
    ebitda_millions := st6.1
    date := (opportunities.filterMap (·.date)).head?
    company_name := selectBestField results (·.company_options) (·.company_name)
    sector := selectBestField results (·.sector_options) (·.sector)
    raw_ebitda_text := some ("[" ++ st6.2 ++ "]") }

/-- `_combine_results` as a state transformer on the engine instance: the
method reads `self.historical_data` and assigns no attribute of `self`, so
the state passes through unchanged. -/
def combineResultsS (st : EnsembleState) (results : List (String × ParserResult))
    (strategy : String) : InvestmentOpportunity × EnsembleState :=
  (combineResults st.historical_data results strategy, st)

/-- `EnsembleParser._run_single_parser`: run one extractor under the
per-call isolation boundary; an exception yields `none` instead of
propagating. -/
def runSingleParser (name : String) (parser : Extractor) (email_data : EmailData) :
    Option (String × ParserResult) :=
  match parser.extract email_data with
  | .ok opportunity =>
    some (name, { opportunity := opportunity, parser_name := name,
                  extraction_source := parser.extraction_source })
  | .error _ => none

/-- The result-collection loop of `parse_data` (sequential path): successful
outcomes in configuration order.  The parallel path collects the same set of
outcomes in completion order (a permutation of this list). -/
def collectResults (parsers : List (String × Extractor)) (email_data : EmailData) :
    List (String × ParserResult) :=
  parsers.filterMap (fun p => runSingleParser p.1 p.2 email_data)

/-- `EnsembleParser.parse_data` (sequential path): collect the surviving
outcomes and combine them with `strategy="all"`. -/
def parseData (hist : Option (List HistRow)) (parsers : List (String × Extractor))
    (email_data : EmailData) : InvestmentOpportunity :=
  combineResults hist (collectResults parsers email_data) "all"

/-! ### Specification-side definitions

The following definitions restate selection routines in the spec's own
vocabulary (explicit candidate lists, maxima, `find?` for "first with
property"), to be compared with the loop-structured translations above, and
claim-worded variants used to exhibit divergences from the claims. -/

/-- The candidate list scanned by `_confidence_weighted`: one `(value, score)`
pair per outcome with a non-null EBITDA. -/
def cwCandidates (results : List (String × ParserResult)) :
    List (Option ℚ × ℚ) :=
  results.filterMap (fun p =>
    p.2.opportunity.ebitda_millions.map (fun e => (some e, cwScore p.1 p.2)))

/-- The maximal score of a candidate list (`0` when empty). -/
def maxScore {β : Type} (cands : List (β × ℚ)) : ℚ :=
  (cands.map Prod.snd).foldl max 0

/-- Spec-side selection: the first candidate attaining the maximal score,
provided that score is strictly positive. -/
def specBest {β : Type} (cands : List (Option β × ℚ)) : Option β :=
  if 0 < maxScore cands then
    (cands.find? (fun c => decide (c.2 = maxScore cands))).bind Prod.fst
  else none

/-- The flattened `(value, combined score)` candidate list scanned by
`_select_best_field` for one field. -/
def fieldCandidates (results : List (String × ParserResult))
    (getOptions : InvestmentOpportunity → List FieldOption) :
    List (Option String × ℚ) :=
  results.flatMap (fun p =>
    (getOptions p.2.opportunity).map (fun o =>
      (o.value, parserWeight p.1 * sourceWeight p.2.extraction_source * o.confidence)))

/-- Spec-side fallback of `_select_best_field`: the first outcome with a
truthy scalar value from a preferred extractor (`LLM`/`Vision`), else from any
extractor. -/
def specFallback (results : List (String × ParserResult))
    (getFallback : InvestmentOpportunity → Option String) : Option String :=
  match results.find? (fun p =>
      decide (strTruthy (getFallback p.2.opportunity) ∧
        (p.1 = "LLM" ∨ p.1 = "Vision"))) with
  | some p => getFallback p.2.opportunity
  | none =>
    match results.find? (fun p => strTruthy (getFallback p.2.opportunity)) with
    | some p => getFallback p.2.opportunity
    | none => none

/-- Claim-worded confidence-weighted candidates (claim C3): the raw-text
bonus applies whenever `raw_ebitda_text` is present (non-null), including the
empty string. -/
def claimCwCandidates (results : List (String × ParserResult)) :
    List (Option ℚ × ℚ) :=
  results.filterMap (fun p =>
    p.2.opportunity.ebitda_millions.map (fun e =>
      (some e, parserWeight p.1 * sourceWeight p.2.extraction_source *
        (if p.2.opportunity.raw_ebitda_text.isSome then 11/10 else 1))))

/-- Claim-worded confidence-weighted selection (claim C3): highest score
wins, first on ties. -/
def claimConfidenceWeighted (results : List (String × ParserResult)) :
    Option ℚ :=
  specBest (claimCwCandidates results)

/-- Claim-worded first company name (claim C5): the first non-null
`company_name` across outcomes, with no non-emptiness requirement. -/
def claimFirstCompany (results : List (String × ParserResult)) : Option String :=
  (results.filterMap (fun p => p.2.opportunity.company_name)).head?

/-- Claim-worded historical validation (claim C5): look the first non-null
company name up by case-insensitive substring match and return the valid
candidate closest to the parsed historical value. -/
def claimHistorical (hist : Option (List HistRow))
    (results : List (String × ParserResult)) : Option ℚ :=
  match hist, claimFirstCompany results with
  | some table, some cname =>
    match (table.filter (fun row => strContainsCI row.1 cname)).head? with
    | none => none
    | some row =>
      match parseHistVal row.2 with
      | none => none
      | some h => ((ebitdaValuesOf results).filterMap id).foldl (closestStep h) none
  | _, _ => none

/-! ### Concrete inputs used by counterexamples and witnesses -/

/-- An opportunity record carrying only the fields the cascade reads. -/
def demoOpp (e : Option ℚ) (raw : Option String := none)
    (cn : Option String := none) : InvestmentOpportunity :=
  { ebitda_millions := e, raw_ebitda_text := raw, company_name := cn }

/-- One collected outcome with the given parser name, extraction source and
opportunity fields. -/
def demoRes (n src : String) (e : Option ℚ) (raw : Option String := none)
    (cn : Option String := none) : String × ParserResult :=
  (n, { opportunity := demoOpp e raw cn, parser_name := n,
        extraction_source := src })

/-- A single outcome whose EBITDA is exactly `0` (a valid, non-null value
that Python truthiness treats as false). -/
def cexZeroOutcome : List (String × ParserResult) :=
  [demoRes "NER" "body" (some 0)]

/-- The spec's two-of-three agreement scenario: NER and LLM agree on `4.5`,
Vision reports `3.6` from an attachment. -/
def demoTwoOfThree : List (String × ParserResult) :=
  [demoRes "NER" "body" (some (9/2)), demoRes "LLM" "body" (some (9/2)),
   demoRes "Vision" "attachment" (some (18/5))]

/-- The spec's no-agreement scenario, all with raw text: NER 4.5, LLM 6.0,
Vision 3.6 (attachment). -/
def demoNoAgreement : List (String × ParserResult) :=
  [demoRes "NER" "body" (some (9/2)) (some ("raw")),
   demoRes "LLM" "body" (some 6) (some ("raw")),
   demoRes "Vision" "attachment" (some (18/5)) (some ("raw"))]

/-- A present-but-empty raw text on the higher-scoring (per claim C3)
attachment outcome: the claim's scoring gives Vision `1.188 > 1.1`, while the
code's truthy bonus gives Vision `1.08 < 1.1`. -/
def cexEmptyRaw : List (String × ParserResult) :=
  [demoRes "LLM" "body" (some 5) (some ("EBITDA of $5M")),
   demoRes "Vision" "attachment" (some (18/5)) (some (""))]

/-- Historical table with one company whose stored EBITDA is `6.2`. -/
def demoTable : List HistRow := [("Acme Corp", HistVal.hnum (31/5))]

/-- Historical table where the empty pattern matches row one (`Zeta`,
EBITDA 10) while `Acme` matches row two (EBITDA 6.2). -/
def cexTable : List HistRow :=
  [("Zeta", HistVal.hnum 10), ("Acme", HistVal.hnum (31/5))]

/-- Outcomes whose first company name is the non-null empty string; the
first truthy company name is `Acme`.  Candidate EBITDAs are 5 and 12. -/
def cexEmptyCompany : List (String × ParserResult) :=
  [demoRes "NER" "body" (some 5) none (some ("")),
   demoRes "LLM" "body" (some 12) none (some ("Acme"))]

/-- An opportunity with location options and a scalar location. -/
def demoOppLoc (opts : List FieldOption) (hq : Option String) :
    InvestmentOpportunity :=
  { location_options := opts, hq_location := hq }

/-- One LLM outcome offering a single zero-confidence location option
`Paris` next to the scalar location `Lyon`. -/
def cexZeroConfidence : List (String × ParserResult) :=
  [("LLM", { opportunity := demoOppLoc [⟨some ("Paris"), 0⟩] (some ("Lyon")),
             parser_name := "LLM", extraction_source := "body" })]

/-- Outcomes with no options where the first scalar location is the
non-null empty string. -/
def cexEmptyScalar : List (String × ParserResult) :=
  [("LLM", { opportunity := demoOppLoc [] (some ("")),
             parser_name := "LLM", extraction_source := "body" }),
   ("Vision", { opportunity := demoOppLoc [] (some ("Lyon")),
                parser_name := "Vision", extraction_source := "body" })]

/-- One LLM outcome offering a single full-confidence location option. -/
def demoConfident : List (String × ParserResult) :=
  [("LLM", { opportunity := demoOppLoc [⟨some ("Paris"), 1⟩] none,
             parser_name := "LLM", extraction_source := "body" })]

/-- An outcome whose extractor succeeded but produced no EBITDA. -/
def demoNullOutcome : List (String × ParserResult) :=
  [demoRes "NER" "body" none none (some ("Acme"))]

/-- An extractor that always succeeds with the given record. -/
def okExtractor (o : InvestmentOpportunity) (src : String := "body") : Extractor :=
  { extract := fun _ => .ok o, extraction_source := src }

/-- An extractor that always raises. -/
def failExtractor : Extractor :=
  { extract := fun _ => .error ("boom"), extraction_source := "body" }

/-- A concrete document for the isolation witness. -/
def demoEmail : EmailData := {}

/-- The extractors configured before the raising one in the isolation
witness. -/
def demoPre : List (String × Extractor) :=
  [("NER", okExtractor (demoOpp (some (9/2))))]

/-- The extractors configured after the raising one in the isolation
witness. -/
def demoPost : List (String × Extractor) :=
  [("Vision", okExtractor (demoOpp (some (18/5))) ("attachment"))]

/-! ### Generic facts about the strict-improvement fold

`_confidence_weighted` and `_select_best_field` both track a running best
with a strict comparison against the previous best (initially score `0`), so
the final pick is the first candidate attaining the maximal score, provided
that maximum is strictly positive. -/

lemma le_foldl_max (ss : List ℚ) (b : ℚ) : b ≤ ss.foldl max b := by
  induction ss generalizing b with
  | nil => exact le_refl b
  | cons s ss ih => exact le_trans (le_max_left b s) (ih (max b s))

lemma foldl_max_eq_or_mem (ss : List ℚ) (b : ℚ) :
    ss.foldl max b = b ∨ ss.foldl max b ∈ ss := by
  induction ss generalizing b with
  | nil => exact Or.inl rfl
  | cons s ss ih =>
    rcases ih (max b s) with h | h
    · rcases max_choice b s with hb | hs
      · exact Or.inl (by rw [List.foldl_cons, h, hb])
      · refine Or.inr ?_
        rw [List.foldl_cons, h, hs]
        exact List.mem_cons_self s ss
    · exact Or.inr (List.mem_cons_of_mem s h)

lemma foldBest_eq {β : Type} (cands : List (β × ℚ)) (acc : β × ℚ) :
    cands.foldl (fun a c => if c.2 > a.2 then c else a) acc =
      if acc.2 < (cands.map Prod.snd).foldl max acc.2 then
        (cands.find? (fun c =>
          decide (c.2 = (cands.map Prod.snd).foldl max acc.2))).getD acc
      else acc := by
  induction cands generalizing acc with
  | nil => simp
  | cons c cs ih =>
    rw [List.foldl_cons, List.map_cons, List.foldl_cons]
    by_cases hc : c.2 > acc.2
    · have hmax : max acc.2 c.2 = c.2 := max_eq_right (le_of_lt hc)
      rw [if_pos hc, ih c, hmax]
      by_cases hcm : c.2 < (cs.map Prod.snd).foldl max c.2
      · rw [if_pos hcm, if_pos (lt_trans hc hcm)]
        have hne : ¬ (c.2 = (cs.map Prod.snd).foldl max c.2) := ne_of_lt hcm
        rw [List.find?_cons_of_neg _ (by simpa using hne)]
        have hmem : (cs.map Prod.snd).foldl max c.2 ∈ cs.map Prod.snd := by
          rcases foldl_max_eq_or_mem (cs.map Prod.snd) c.2 with h | h
          · exact absurd h.symm hne
          · exact h
        rcases List.mem_map.mp hmem with ⟨d, hd, hds⟩
        have hfind : (cs.find? (fun x =>
            decide (x.2 = (cs.map Prod.snd).foldl max c.2))).isSome := by
          rw [List.find?_isSome]
          exact ⟨d, hd, by simpa using hds⟩
        rcases Option.isSome_iff_exists.mp hfind with ⟨d0, hd0⟩
        rw [hd0]
        rfl
      · rw [if_neg hcm]
        have hacc : acc.2 < (cs.map Prod.snd).foldl max c.2 :=
          lt_of_lt_of_le hc (le_foldl_max (cs.map Prod.snd) c.2)
        rw [if_pos hacc]
        have hle : c.2 ≤ (cs.map Prod.snd).foldl max c.2 :=
          le_foldl_max (cs.map Prod.snd) c.2
        have heq : (cs.map Prod.snd).foldl max c.2 = c.2 :=
          le_antisymm (le_of_not_lt hcm) hle
        rw [List.find?_cons_of_pos _ (by simpa using heq.symm)]
        rfl
    · have hmax : max acc.2 c.2 = acc.2 := max_eq_left (le_of_not_lt hc)
      rw [if_neg hc, ih acc, hmax]
      by_cases ham : acc.2 < (cs.map Prod.snd).foldl max acc.2
      · rw [if_pos ham, if_pos ham]
        have hne : ¬ (c.2 = (cs.map Prod.snd).foldl max acc.2) :=
          ne_of_lt (lt_of_le_of_lt (le_of_not_lt hc) ham)
        rw [List.find?_cons_of_neg _ (by simpa using hne)]
      · rw [if_neg ham, if_neg ham]

lemma foldBest_fst_eq_specBest {β : Type} (cands : List (Option β × ℚ)) :
    (cands.foldl (fun a c => if c.2 > a.2 then c else a)
      ((none : Option β), (0 : ℚ))).1 = specBest cands := by
  rw [foldBest_eq]
  unfold specBest maxScore
  by_cases h : (0 : ℚ) < (cands.map Prod.snd).foldl max 0
  · rw [if_pos h, if_pos h]
    cases hf : cands.find? (fun c =>
        decide (c.2 = (cands.map Prod.snd).foldl max 0)) with
    | none => rfl
    | some d => rfl
  · rw [if_neg h, if_neg h]

lemma cw_fold_proj (results : List (String × ParserResult)) :
    ∀ (bv : Option ℚ) (bs : ℚ) (nm : String),
      ((results.foldl cwStep (bv, bs, nm)).1,
       (results.foldl cwStep (bv, bs, nm)).2.1) =
        (cwCandidates results).foldl (fun a c => if c.2 > a.2 then c else a)
          (bv, bs) := by
  induction results with
  | nil => intro bv bs nm; rfl
  | cons p ps ih =>
    intro bv bs nm
    rw [List.foldl_cons]
    cases he : p.2.opportunity.ebitda_millions with
    | none =>
      have hstep : cwStep (bv, bs, nm) p = (bv, bs, nm) := by
        unfold cwStep; rw [he]
      have hcands : cwCandidates (p :: ps) = cwCandidates ps := by
        unfold cwCandidates; rw [List.filterMap_cons, he]; rfl
      rw [hstep, hcands]
      exact ih bv bs nm
    | some e =>
      have hcands : cwCandidates (p :: ps) =
          (some e, cwScore p.1 p.2) :: cwCandidates ps := by
        unfold cwCandidates; rw [List.filterMap_cons, he]; rfl
      rw [hcands, List.foldl_cons]
      by_cases hs : cwScore p.1 p.2 > bs
      · have hstep : cwStep (bv, bs, nm) p =
            (some e, cwScore p.1 p.2, p.1) := by
          unfold cwStep; rw [he]; simp only [if_pos hs]
        have hpair : (if (some e, cwScore p.1 p.2).2 > (bv, bs).2
            then (some e, cwScore p.1 p.2) else (bv, bs)) =
            (some e, cwScore p.1 p.2) := if_pos hs
        rw [hstep, hpair]
        exact ih (some e) (cwScore p.1 p.2) p.1
      · have hstep : cwStep (bv, bs, nm) p = (bv, bs, nm) := by
          unfold cwStep; rw [he]; simp only [if_neg hs]
        have hpair : (if (some e, cwScore p.1 p.2).2 > (bv, bs).2
            then (some e, cwScore p.1 p.2) else (bv, bs)) = (bv, bs) :=
          if_neg hs
        rw [hstep, hpair]
        exact ih bv bs nm

/-- The EBITDA picked by `_confidence_weighted` is the first candidate
attaining the maximal confidence score, when that maximum is positive. -/
lemma confidenceWeighted_fst (results : List (String × ParserResult)) :
    (confidenceWeighted results).1 = specBest (cwCandidates results) := by
  unfold confidenceWeighted
  have h := cw_fold_proj results none 0 ""
  have h1 := congrArg Prod.fst h
  simp only at h1
  rw [h1, foldBest_fst_eq_specBest]

lemma half_le_cwScore (name : String) (result : ParserResult) :
    (1 : ℚ)/2 ≤ cwScore name result := by
  unfold cwScore parserWeight sourceWeight
  repeat' split
  all_goals norm_num

lemma mem_le_foldl_max {x : ℚ} {ss : List ℚ} (hx : x ∈ ss) (b : ℚ) :
    x ≤ ss.foldl max b := by
  induction ss generalizing b with
  | nil => cases hx
  | cons s ss ih =>
    rcases List.mem_cons.mp hx with rfl | h
    · exact le_trans (le_max_right b x) (le_foldl_max ss (max b x))
    · exact ih h (max b s)

/-- `_confidence_weighted` returns a null value exactly when every outcome's
EBITDA is null: any non-null candidate scores at least `0.5 > 0`. -/
lemma confidenceWeighted_none_iff (results : List (String × ParserResult)) :
    (confidenceWeighted results).1 = none ↔
      ∀ p ∈ results, p.2.opportunity.ebitda_millions = none := by
  rw [confidenceWeighted_fst]
  constructor
  · intro h p hp
    by_contra hne
    rcases Option.ne_none_iff_exists'.mp hne with ⟨e, he⟩
    have hcand : (some e, cwScore p.1 p.2) ∈ cwCandidates results := by
      unfold cwCandidates
      refine List.mem_filterMap.mpr ⟨p, hp, ?_⟩
      rw [he]; rfl
    have hscore : cwScore p.1 p.2 ∈ (cwCandidates results).map Prod.snd :=
      List.mem_map.mpr ⟨(some e, cwScore p.1 p.2), hcand, rfl⟩
    have hposM : (0 : ℚ) < maxScore (cwCandidates results) := by
      unfold maxScore
      calc (0 : ℚ) < 1/2 := by norm_num
        _ ≤ cwScore p.1 p.2 := half_le_cwScore p.1 p.2
        _ ≤ ((cwCandidates results).map Prod.snd).foldl max 0 :=
          mem_le_foldl_max hscore 0
    unfold specBest at h
    rw [if_pos hposM] at h
    have hMmem : maxScore (cwCandidates results) ∈
        (cwCandidates results).map Prod.snd := by
      unfold maxScore
      rcases foldl_max_eq_or_mem ((cwCandidates results).map Prod.snd) 0 with
        h0 | hmem
      · exfalso; unfold maxScore at hposM; rw [h0] at hposM; exact lt_irrefl 0 hposM
      · exact hmem
    rcases List.mem_map.mp hMmem with ⟨d, hd, hds⟩
    have hfind : ((cwCandidates results).find? (fun c =>
        decide (c.2 = maxScore (cwCandidates results)))).isSome := by
      rw [List.find?_isSome]
      exact ⟨d, hd, by simpa using hds⟩
    rcases Option.isSome_iff_exists.mp hfind with ⟨d0, hd0⟩
    rw [hd0] at h
    have hd0mem : d0 ∈ cwCandidates results := List.mem_of_find?_eq_some hd0
    rcases List.mem_filterMap.mp hd0mem with ⟨q, hq, hqd⟩
    cases hqe : q.2.opportunity.ebitda_millions with
    | none => rw [hqe] at hqd; cases hqd
    | some e2 =>
      rw [hqe] at hqd
      simp only [Option.map_some'] at hqd
      rw [← hqd] at h
      cases h
  · intro h
    have hnil : cwCandidates results = [] := by
      unfold cwCandidates
      rw [List.filterMap_eq_nil_iff]
      intro p hp
      rw [h p hp]; rfl
    rw [hnil]
    rfl

lemma fieldStep_eq_foldl (getOptions : InvestmentOpportunity → List FieldOption)
    (acc : Option String × ℚ) (p : String × ParserResult) :
    fieldStep getOptions acc p =
      ((getOptions p.2.opportunity).map (fun o =>
          (o.value, parserWeight p.1 * sourceWeight p.2.extraction_source *
            o.confidence))).foldl
        (fun a c => if c.2 > a.2 then c else a) acc := by
  unfold fieldStep
  rw [List.foldl_map]

lemma scan_fold_flatten (results : List (String × ParserResult))
    (getOptions : InvestmentOpportunity → List FieldOption) :
    ∀ acc, results.foldl (fieldStep getOptions) acc =
      (fieldCandidates results getOptions).foldl
        (fun a c => if c.2 > a.2 then c else a) acc := by
  induction results with
  | nil => intro acc; rfl
  | cons p ps ih =>
    intro acc
    have hcands : fieldCandidates (p :: ps) getOptions =
        ((getOptions p.2.opportunity).map (fun o =>
          (o.value, parserWeight p.1 * sourceWeight p.2.extraction_source *
            o.confidence))) ++ fieldCandidates ps getOptions := by
      unfold fieldCandidates
      rw [List.flatMap_cons]
    rw [List.foldl_cons, hcands, List.foldl_append, ih, fieldStep_eq_foldl]

/-- The option scan of `_select_best_field` picks the first option attaining
the maximal combined score, when that maximum is positive. -/
lemma scanOptions_fst (results : List (String × ParserResult))
    (getOptions : InvestmentOpportunity → List FieldOption) :
    (scanOptions results getOptions).1 =
      specBest (fieldCandidates results getOptions) := by
  unfold scanOptions
  rw [scan_fold_flatten, foldBest_fst_eq_specBest]

/-- The score tracked by the option scan is the running maximum of the
combined scores (and `0` initially). -/
lemma scanOptions_snd (results : List (String × ParserResult))
    (getOptions : InvestmentOpportunity → List FieldOption) :
    (scanOptions results getOptions).2 =
      maxScore (fieldCandidates results getOptions) := by
  unfold scanOptions
  rw [scan_fold_flatten, foldBest_eq]
  unfold maxScore
  by_cases h : (0 : ℚ) <
      ((fieldCandidates results getOptions).map Prod.snd).foldl max 0
  · rw [if_pos h]
    cases hf : (fieldCandidates results getOptions).find? (fun c =>
        decide (c.2 =
          ((fieldCandidates results getOptions).map Prod.snd).foldl max 0)) with
    | none =>
      exfalso
      have hMmem : ((fieldCandidates results getOptions).map Prod.snd).foldl max 0 ∈
          (fieldCandidates results getOptions).map Prod.snd := by
        rcases foldl_max_eq_or_mem
          ((fieldCandidates results getOptions).map Prod.snd) 0 with h0 | hmem
        · rw [h0] at h; exact absurd h (lt_irrefl 0)
        · exact hmem
      rcases List.mem_map.mp hMmem with ⟨d, hd, hds⟩
      have : ((fieldCandidates results getOptions).find? (fun c =>
          decide (c.2 =
            ((fieldCandidates results getOptions).map Prod.snd).foldl max 0))).isSome := by
        rw [List.find?_isSome]
        exact ⟨d, hd, by simpa using hds⟩
      rw [hf] at this
      cases this
    | some d =>
      have := List.find?_some hf
      simp only [decide_eq_true_eq] at this
      simpa using this
  · rw [if_neg h]
    exact le_antisymm
      (le_foldl_max ((fieldCandidates results getOptions).map Prod.snd) 0)
      (le_of_not_lt h)

lemma fallbackPreferred_eq (getFallback : InvestmentOpportunity → Option String)
    (results : List (String × ParserResult)) :
    fallbackPreferred getFallback results =
      match results.find? (fun p =>
          decide (strTruthy (getFallback p.2.opportunity) ∧
            (p.1 = "LLM" ∨ p.1 = "Vision"))) with
      | some p => getFallback p.2.opportunity
      | none => none := by
  induction results with
  | nil => rfl
  | cons p ps ih =>
    unfold fallbackPreferred
    by_cases h : strTruthy (getFallback p.2.opportunity) ∧
        (p.1 = "LLM" ∨ p.1 = "Vision")
    · rw [if_pos h, List.find?_cons_of_pos _ (by simpa using h)]
    · rw [if_neg h, List.find?_cons_of_neg _ (by simpa using h), ih]

lemma fallbackAny_eq (getFallback : InvestmentOpportunity → Option String)
    (results : List (String × ParserResult)) :
    fallbackAny getFallback results =
      match results.find? (fun p => strTruthy (getFallback p.2.opportunity)) with
      | some p => getFallback p.2.opportunity
      | none => none := by
  induction results with
  | nil => rfl
  | cons q ps ih =>
    unfold fallbackAny
    by_cases h : strTruthy (getFallback q.2.opportunity) = true
    · rw [if_pos (by simpa using h),
        List.find?_cons_of_pos
          (p := fun r : String × ParserResult =>
            strTruthy (getFallback r.2.opportunity)) _ h]
    · rw [if_neg (by simpa using h),
        List.find?_cons_of_neg
          (p := fun r : String × ParserResult =>
            strTruthy (getFallback r.2.opportunity)) _
          (by simpa using h), ih]

/-- `_select_best_field` as selection-then-fallback over the flattened
candidate list. -/
lemma selectBestField_char (results : List (String × ParserResult))
    (getOptions : InvestmentOpportunity → List FieldOption)
    (getFallback : InvestmentOpportunity → Option String) :
    selectBestField results getOptions getFallback =
      match specBest (fieldCandidates results getOptions) with
      | some v => some v
      | none => specFallback results getFallback := by
  unfold selectBestField specFallback
  rw [scanOptions_fst, fallbackPreferred_eq, fallbackAny_eq]
  cases specBest (fieldCandidates results getOptions) with
  | some v => rfl
  | none =>
    cases hf : results.find? (fun p =>
        decide (strTruthy (getFallback p.2.opportunity) ∧
          (p.1 = "LLM" ∨ p.1 = "Vision"))) with
    | some q =>
      have hq := List.find?_some hf
      simp only [decide_eq_true_eq] at hq
      cases hgf : getFallback q.2.opportunity with
      | none => rw [hgf] at hq; exact absurd hq.1 (by simp [strTruthy])
      | some s => simp [hgf]
    | none => rfl

/-! ### Facts about the fuzzy-consensus clustering -/

lemma largestCluster_go (cs : List (List ℚ)) :
    ∀ acc : Option (List ℚ),
      match cs.foldl lcStep acc with
      | none => cs = [] ∧ acc = none
      | some c => (c ∈ cs ∨ acc = some c) ∧ (∀ d ∈ cs, d.length ≤ c.length) ∧
          (∀ b, acc = some b → b.length ≤ c.length) := by
  induction cs with
  | nil =>
    intro acc
    cases acc with
    | none => exact ⟨rfl, rfl⟩
    | some b =>
      refine ⟨Or.inr rfl, ?_, ?_⟩
      · intro d hd; cases hd
      · intro b2 hb2; cases hb2; exact le_refl _
  | cons c cs ih =>
    intro acc
    rw [List.foldl_cons]
    have key : ∀ a2 : List ℚ, lcStep acc c = some a2 → c.length ≤ a2.length →
        (a2 = c ∨ acc = some a2) →
        (∀ b, acc = some b → b.length ≤ a2.length) →
        match cs.foldl lcStep (lcStep acc c) with
        | none => c :: cs = [] ∧ acc = none
        | some r => (r ∈ c :: cs ∨ acc = some r) ∧
            (∀ d ∈ c :: cs, d.length ≤ r.length) ∧
            (∀ b, acc = some b → b.length ≤ r.length) := by
      intro a2 hstep ha2le ha2src ha2acc
      rw [hstep]
      have h2 := ih (some a2)
      cases hfold : cs.foldl lcStep (some a2) with
      | none => rw [hfold] at h2; exact absurd h2.2 (by simp)
      | some r =>
        rw [hfold] at h2
        rcases h2 with ⟨hmem, hall, hacc⟩
        have hra : a2.length ≤ r.length := hacc a2 rfl
        refine ⟨?_, ?_, ?_⟩
        · rcases hmem with hr | hr
          · exact Or.inl (List.mem_cons_of_mem c hr)
          · have hr2 : r = a2 := by injection hr with h3; exact h3.symm
            rcases ha2src with h | h
            · exact Or.inl (by rw [hr2, h]; exact List.mem_cons_self c cs)
            · exact Or.inr (by rw [hr2]; exact h)
        · intro d hd
          rcases List.mem_cons.mp hd with rfl | hd2
          · exact le_trans ha2le hra
          · exact hall d hd2
        · intro b hb
          exact le_trans (ha2acc b hb) hra
    cases acc with
    | none =>
      exact key c rfl (le_refl _) (Or.inl rfl) (fun b hb => by cases hb)
    | some b =>
      by_cases hcb : c.length > b.length
      · refine key c (by simp [lcStep, hcb]) (le_refl _) (Or.inl rfl) ?_
        intro b2 hb2
        injection hb2 with hb2
        rw [← hb2]
        exact le_of_lt hcb
      · refine key b (by simp [lcStep, hcb]) (le_of_not_lt hcb) (Or.inr rfl) ?_
        intro b2 hb2
        injection hb2 with hb2
        rw [← hb2]

/-- `max(clusters, key=len)` returns a member of maximal length. -/
lemma largestCluster_spec (cs : List (List ℚ)) (c : List ℚ)
    (h : largestCluster cs = some c) :
    c ∈ cs ∧ ∀ d ∈ cs, d.length ≤ c.length := by
  have := largestCluster_go cs none
  unfold largestCluster at h
  rw [h] at this
  rcases this with ⟨hmem, hall, _⟩
  rcases hmem with hm | hm
  · exact ⟨hm, hall⟩
  · cases hm

lemma largestCluster_isSome (cs : List (List ℚ)) (h : cs ≠ []) :
    (largestCluster cs).isSome := by
  have hgo := largestCluster_go cs none
  cases hf : largestCluster cs with
  | none =>
    unfold largestCluster at hf
    rw [hf] at hgo
    exact absurd hgo.1 h
  | some c => rfl

lemma fuzzyInsert_ne_nil (tolerance v : ℚ) (cs : List (List ℚ)) :
    fuzzyInsert tolerance v cs ≠ [] := by
  cases cs with
  | nil => simp [fuzzyInsert]
  | cons c cs =>
    unfold fuzzyInsert
    by_cases h : fuzzy_match_ebitda (some v) c.head? tolerance = true
    · simp [h]
    · simp [h]

lemma fuzzyClusters_ne_nil (tolerance : ℚ) (valid : List ℚ) (h : valid ≠ []) :
    fuzzyClusters tolerance valid ≠ [] := by
  unfold fuzzyClusters
  have hgen : ∀ (vs : List ℚ) (cs : List (List ℚ)), cs ≠ [] →
      vs.foldl (fun cs v => fuzzyInsert tolerance v cs) cs ≠ [] := by
    intro vs
    induction vs with
    | nil => intro cs hcs; exact hcs
    | cons v vs ih =>
      intro cs hcs
      rw [List.foldl_cons]
      exact ih (fuzzyInsert tolerance v cs) (fuzzyInsert_ne_nil tolerance v cs)
  cases valid with
  | nil => exact absurd rfl h
  | cons v vs =>
    rw [List.foldl_cons]
    exact hgen vs (fuzzyInsert tolerance v [])
      (fuzzyInsert_ne_nil tolerance v [])

lemma closest_go (h : ℚ) (valid : List ℚ) :
    ∀ acc : Option ℚ,
      match valid.foldl (closestStep h) acc with
      | none => valid = [] ∧ acc = none
      | some r => (r ∈ valid ∨ acc = some r) ∧
          (∀ w ∈ valid, |r - h| ≤ |w - h|) ∧
          (∀ b, acc = some b → |r - h| ≤ |b - h|) := by
  induction valid with
  | nil =>
    intro acc
    cases acc with
    | none => exact ⟨rfl, rfl⟩
    | some b =>
      refine ⟨Or.inr rfl, ?_, ?_⟩
      · intro w hw; cases hw
      · intro b2 hb2; cases hb2; exact le_refl _
  | cons v vs ih =>
    intro acc
    rw [List.foldl_cons]
    have key : ∀ a2 : ℚ, closestStep h acc v = some a2 → |a2 - h| ≤ |v - h| →
        (a2 = v ∨ acc = some a2) →
        (∀ b, acc = some b → |a2 - h| ≤ |b - h|) →
        match vs.foldl (closestStep h) (closestStep h acc v) with
        | none => v :: vs = [] ∧ acc = none
        | some r => (r ∈ v :: vs ∨ acc = some r) ∧
            (∀ w ∈ v :: vs, |r - h| ≤ |w - h|) ∧
            (∀ b, acc = some b → |r - h| ≤ |b - h|) := by
      intro a2 hstep ha2le ha2src ha2acc
      rw [hstep]
      have h2 := ih (some a2)
      cases hfold : vs.foldl (closestStep h) (some a2) with
      | none => rw [hfold] at h2; exact absurd h2.2 (by simp)
      | some r =>
        rw [hfold] at h2
        rcases h2 with ⟨hmem, hall, hacc⟩
        have hra : |r - h| ≤ |a2 - h| := hacc a2 rfl
        refine ⟨?_, ?_, ?_⟩
        · rcases hmem with hr | hr
          · exact Or.inl (List.mem_cons_of_mem v hr)
          · have hr2 : r = a2 := by injection hr with h3; exact h3.symm
            rcases ha2src with hh | hh
            · exact Or.inl (by rw [hr2, hh]; exact List.mem_cons_self v vs)
            · exact Or.inr (by rw [hr2]; exact hh)
        · intro w hw
          rcases List.mem_cons.mp hw with rfl | hw2
          · exact le_trans hra ha2le
          · exact hall w hw2
        · intro b hb
          exact le_trans hra (ha2acc b hb)
    cases acc with
    | none =>
      exact key v rfl (le_refl _) (Or.inl rfl) (fun b hb => by cases hb)
    | some b =>
      by_cases hvb : |v - h| < |b - h|
      · refine key v (by simp [closestStep, hvb]) (le_refl _) (Or.inl rfl) ?_
        intro b2 hb2
        injection hb2 with hb2
        rw [← hb2]
        exact le_of_lt hvb
      · refine key b (by simp [closestStep, hvb]) (le_of_not_lt hvb)
          (Or.inr rfl) ?_
        intro b2 hb2
        injection hb2 with hb2
        rw [← hb2]

/-- The closest-candidate scan of `_validate_against_historical`: on a
nonempty valid list it returns a member minimising the distance to the
historical value. -/
lemma closest_spec (h : ℚ) (valid : List ℚ) (hne : valid ≠ []) :
    ∃ r, valid.foldl (closestStep h) none = some r ∧ r ∈ valid ∧
      ∀ w ∈ valid, |r - h| ≤ |w - h| := by
  have hgo := closest_go h valid none
  cases hf : valid.foldl (closestStep h) none with
  | none => rw [hf] at hgo; exact absurd hgo.1 hne
  | some r =>
    rw [hf] at hgo
    rcases hgo with ⟨hmem, hall, _⟩
    rcases hmem with hm | hm
    · exact ⟨r, rfl, hm, hall⟩
    · cases hm

/-! ### The cascade of `_combine_results` with `strategy="all"` -/

lemma qTruthy_ne_none {o : Option ℚ} (h : qTruthy o = true) : o ≠ none := by
  cases o with
  | none => cases h
  | some q => exact Option.some_ne_none q

lemma ebitda_all_none_iff (results : List (String × ParserResult)) :
    (ebitdaValuesOf results).filterMap id = [] ↔
      ∀ p ∈ results, p.2.opportunity.ebitda_millions = none := by
  unfold ebitdaValuesOf
  rw [List.filterMap_eq_nil_iff]
  constructor
  · intro h p hp
    exact h p.2.opportunity.ebitda_millions
      (List.mem_map.mpr ⟨p, hp, rfl⟩)
  · intro h a ha
    rcases List.mem_map.mp ha with ⟨p, hp, rfl⟩
    exact h p hp

lemma sourcePrioritized_none (results : List (String × ParserResult))
    (h : ∀ p ∈ results, p.2.opportunity.ebitda_millions = none) :
    sourcePrioritized results = none := by
  unfold sourcePrioritized firstWithSource
  have hbind : ∀ source : String,
      ((results.find? (fun p =>
        p.2.extraction_source = source ∧
          p.2.opportunity.ebitda_millions ≠ none)).bind
        (fun p => p.2.opportunity.ebitda_millions)) = none := by
    intro source
    cases hf : results.find? (fun p =>
        p.2.extraction_source = source ∧
          p.2.opportunity.ebitda_millions ≠ none) with
    | none => rfl
    | some p =>
      have hp := List.find?_some hf
      simp only [decide_eq_true_eq] at hp
      exact absurd (h p (List.mem_of_find?_eq_some hf)) hp.2
  rw [hbind "attachment", hbind "body"]

lemma validate_none_of_valid_nil (hist : Option (List HistRow))
    (c : Option String) (values : List (Option ℚ))
    (h : values.filterMap id = []) :
    validateAgainstHistorical hist c values = none := by
  unfold validateAgainstHistorical
  cases hist with
  | none => rfl
  | some table =>
    cases c with
    | none => rfl
    | some cname =>
      dsimp only
      by_cases hc : cname = ""
      · rw [if_pos hc]
      · rw [if_neg hc]
        cases (table.filter (fun row => strContainsCI row.1 cname)).head? with
        | none => rfl
        | some row =>
          dsimp only
          cases parseHistVal row.2 with
          | none => rfl
          | some hv => rw [h]; rfl

/-- The `strategy="all"` cascade: the merged EBITDA and its label are fully
determined by fuzzy consensus (τ=0.001), majority vote and the
confidence-weighted selection.  Source prioritization, historical validation
and first-available only run once `_confidence_weighted` has returned null,
which happens exactly when every outcome's EBITDA is null — and then they
return null as well. -/
lemma cascade_char (hist : Option (List HistRow))
    (results : List (String × ParserResult)) :
    (combineResults hist results "all").ebitda_millions =
      (if qTruthy (fuzzyConsensus (ebitdaValuesOf results) (1/1000)) then
        fuzzyConsensus (ebitdaValuesOf results) (1/1000)
      else if (majorityVote (ebitdaValuesOf results)).isSome then
        majorityVote (ebitdaValuesOf results)
      else (confidenceWeighted results).1) ∧
    (combineResults hist results "all").raw_ebitda_text =
      some ("[" ++
        (if qTruthy (fuzzyConsensus (ebitdaValuesOf results) (1/1000)) then
          "fuzzy_consensus (values within ±$1K)"
        else if qTruthy (majorityVote (ebitdaValuesOf results)) then
          "majority_vote"
        else if (majorityVote (ebitdaValuesOf results)).isSome then "unknown"
        else if qTruthy (confidenceWeighted results).1 then
          "confidence_selection: " ++ (confidenceWeighted results).2
        else "unknown") ++ "]") := by
  unfold combineResults
  dsimp only
  generalize hfz2 : fuzzyConsensus (ebitdaValuesOf results) (1/1000) = fz
  generalize hmv2 : majorityVote (ebitdaValuesOf results) = mv
  generalize hw2 : confidenceWeighted results = w
  by_cases hfq : qTruthy fz = true
  · have hne := qTruthy_ne_none hfq
    constructor <;> simp [hfq, hne]
  · cases mv with
    | some m =>
      constructor <;> simp [hfq]
    | none =>
      cases hwv : w.1 with
      | some x =>
        constructor <;>
          simp [hfq, hwv, show qTruthy none = false from rfl]
      | none =>
        have hall : ∀ p ∈ results, p.2.opportunity.ebitda_millions = none := by
          refine (confidenceWeighted_none_iff results).mp ?_
          rw [hw2, hwv]
        have hnil := (ebitda_all_none_iff results).mpr hall
        have hsp := sourcePrioritized_none results hall
        have hvd := validate_none_of_valid_nil hist (firstTruthyCompany results)
          (ebitdaValuesOf results) hnil
        constructor <;>
          simp [hfq, hwv, hsp, hvd, hnil, show qTruthy none = false from rfl]

/-! ### Collection and isolation -/

lemma collect_name_mem (parsers : List (String × Extractor)) (d : EmailData) :
    ∀ x ∈ (collectResults parsers d).map Prod.fst, x ∈ parsers.map Prod.fst := by
  intro x hx
  rcases List.mem_map.mp hx with ⟨q, hq, rfl⟩
  rcases List.mem_filterMap.mp hq with ⟨p, hp, hrun⟩
  unfold runSingleParser at hrun
  cases he : p.2.extract d with
  | ok o =>
    rw [he] at hrun
    injection hrun with h1
    rw [← h1]
    exact List.mem_map.mpr ⟨p, hp, rfl⟩
  | error s => rw [he] at hrun; cases hrun

/-- When every outcome's EBITDA is null, the `strategy="all"` combination
yields a null merged EBITDA and the `[unknown]` label. -/
lemma combine_all_none (hist : Option (List HistRow))
    (results : List (String × ParserResult))
    (hnone : ∀ p ∈ results, p.2.opportunity.ebitda_millions = none) :
    (combineResults hist results "all").ebitda_millions = none ∧
    (combineResults hist results "all").raw_ebitda_text =
      some ("[" ++ "unknown" ++ "]") := by
  have hnil := (ebitda_all_none_iff results).mpr hnone
  have hfz : fuzzyConsensus (ebitdaValuesOf results) (1/1000) = none := by
    unfold fuzzyConsensus
    rw [hnil]
    rfl
  have hmv : majorityVote (ebitdaValuesOf results) = none := by
    unfold majorityVote
    rw [hnil]
    rfl
  have hw : (confidenceWeighted results).1 = none :=
    (confidenceWeighted_none_iff results).mpr hnone
  have h := cascade_char hist results
  constructor
  · rw [h.1, hfz, hmv, hw]
    simp [qTruthy]
  · rw [h.2, hfz, hmv, hw]
    simp [qTruthy]

/-! ### Claim theorems -/

/-- C1 counterexample: with the single collected outcome reporting an EBITDA
of exactly 0, fuzzy consensus produces the non-null answer `some 0`, yet the
cascade does not stop there with its label — majority vote is still consulted,
the value 0 is kept, and the recorded label is `[unknown]`, naming no
strategy.  The claim's "first strategy producing a non-null answer wins and
its name is recorded" is therefore false as stated. -/
theorem C1_counterexample :
    fuzzyConsensus (ebitdaValuesOf cexZeroOutcome) (1/1000) = some 0 ∧
    (combineResults none cexZeroOutcome "all").ebitda_millions = some 0 ∧
    (combineResults none cexZeroOutcome "all").raw_ebitda_text =
      some ("[unknown]") := by
  have h := cascade_char none cexZeroOutcome
  have hfz : fuzzyConsensus (ebitdaValuesOf cexZeroOutcome) (1/1000) =
      some 0 := by
    norm_num [fuzzyConsensus, fuzzyClusters, fuzzyInsert, fuzzy_match_ebitda,
      largestCluster, lcStep, ebitdaValuesOf, cexZeroOutcome, demoRes, demoOpp,
      List.filterMap_cons, List.foldl_cons, List.foldl_nil]
  have hmv : majorityVote (ebitdaValuesOf cexZeroOutcome) = some 0 := by
    norm_num [majorityVote, mostCommon, ebitdaValuesOf, cexZeroOutcome,
      demoRes, demoOpp, List.filterMap_cons, List.foldl_cons, List.foldl_nil,
      List.count_cons, List.count_nil]
  have hqt : qTruthy (some (0 : ℚ)) = false := by norm_num [qTruthy]
  refine ⟨hfz, ?_, ?_⟩
  · rw [h.1, hfz, hmv]
    simp [hqt]
  · rw [h.2, hfz, hmv]
    simp [hqt]

/-- C1 (amended): with `strategy="all"` the cascade consults fuzzy consensus
(τ=0.001), majority vote and confidence-weighted selection in this strict
order; the first strategy producing a truthy (non-null and non-zero) answer
wins and its name is recorded bracketed in `raw_ebitda_text`.  A strategy
from majority vote onward that returns exactly 0 stops the cascade with value
0 but leaves the label `unknown`; the remaining three strategies only run
when every outcome's EBITDA is null and then contribute nothing.  In
particular, on the two-of-three exact agreement scenario the label names
fuzzy consensus, not the weighted strategy. -/
theorem C1_cascade_order (hist : Option (List HistRow))
    (results : List (String × ParserResult)) :
    ((combineResults hist results "all").ebitda_millions =
      (if qTruthy (fuzzyConsensus (ebitdaValuesOf results) (1/1000)) then
        fuzzyConsensus (ebitdaValuesOf results) (1/1000)
      else if (majorityVote (ebitdaValuesOf results)).isSome then
        majorityVote (ebitdaValuesOf results)
      else (confidenceWeighted results).1)) ∧
    ((combineResults hist results "all").raw_ebitda_text =
      some ("[" ++
        (if qTruthy (fuzzyConsensus (ebitdaValuesOf results) (1/1000)) then
          "fuzzy_consensus (values within ±$1K)"
        else if qTruthy (majorityVote (ebitdaValuesOf results)) then
          "majority_vote"
        else if (majorityVote (ebitdaValuesOf results)).isSome then "unknown"
        else if qTruthy (confidenceWeighted results).1 then
          "confidence_selection: " ++ (confidenceWeighted results).2
        else "unknown") ++ "]")) ∧
    (combineResults none demoTwoOfThree "all").raw_ebitda_text =
      some ("[fuzzy_consensus (values within ±$1K)]") := by
  refine ⟨(cascade_char hist results).1, (cascade_char hist results).2, ?_⟩
  have hfz : fuzzyConsensus (ebitdaValuesOf demoTwoOfThree) (1/1000) =
      some (9/2) := by
    norm_num [fuzzyConsensus, fuzzyClusters, fuzzyInsert, fuzzy_match_ebitda,
      largestCluster, lcStep, ebitdaValuesOf, demoTwoOfThree, demoRes, demoOpp,
      List.filterMap_cons, List.foldl_cons, List.foldl_nil, abs_le]
  rw [(cascade_char none demoTwoOfThree).2, hfz]
  norm_num [qTruthy]
  rfl

/-- C2: fuzzy consensus drops null entries, clusters the remaining values
first-fit against each cluster's first member, and returns the arithmetic
mean of the largest cluster exactly when that cluster's size is a strict
majority of the valid values, returning null otherwise; on
`[5.2, 5.2, 5.2, 3.6]` with τ=0.001 it returns 5.2. -/
theorem C2_fuzzy_consensus_characterization :
    (∀ (values : List (Option ℚ)) (tolerance : ℚ),
      match fuzzyConsensus values tolerance with
      | some m => ∃ c ∈ fuzzyClusters tolerance (values.filterMap id),
          c.length * 2 > (values.filterMap id).length ∧
          (∀ d ∈ fuzzyClusters tolerance (values.filterMap id),
            d.length ≤ c.length) ∧
          m = c.sum / c.length
      | none => ∀ c ∈ fuzzyClusters tolerance (values.filterMap id),
          c.length * 2 ≤ (values.filterMap id).length) ∧
    fuzzyConsensus [some (26/5), some (26/5), some (26/5), some (18/5)]
      (1/1000) = some (26/5) := by
  constructor
  · intro values tolerance
    by_cases hv : (values.filterMap id).isEmpty = true
    · have hres : fuzzyConsensus values tolerance = none := by
        unfold fuzzyConsensus
        rw [if_pos hv]
      rw [hres]
      have hnil : values.filterMap id = [] := by
        rwa [List.isEmpty_iff] at hv
      rw [hnil]
      intro c hc
      cases hc
    · have hne : values.filterMap id ≠ [] := by
        intro hcon
        rw [hcon] at hv
        exact hv rfl
      have hcne := fuzzyClusters_ne_nil tolerance (values.filterMap id) hne
      rcases Option.isSome_iff_exists.mp
        (largestCluster_isSome (fuzzyClusters tolerance (values.filterMap id))
          hcne) with ⟨c, hc⟩
      rcases largestCluster_spec _ c hc with ⟨hcmem, hcall⟩
      by_cases hmaj : c.length * 2 > (values.filterMap id).length
      · have hres : fuzzyConsensus values tolerance =
            some (c.sum / c.length) := by
          unfold fuzzyConsensus
          rw [if_neg hv, hc]
          simp [hmaj]
        rw [hres]
        exact ⟨c, hcmem, hmaj, hcall, rfl⟩
      · have hres : fuzzyConsensus values tolerance = none := by
          unfold fuzzyConsensus
          rw [if_neg hv, hc]
          simp [hmaj]
        rw [hres]
        intro d hd
        calc d.length * 2 ≤ c.length * 2 :=
              Nat.mul_le_mul_right 2 (hcall d hd)
          _ ≤ (values.filterMap id).length := le_of_not_lt hmaj
  · norm_num [fuzzyConsensus, fuzzyClusters, fuzzyInsert, fuzzy_match_ebitda,
      largestCluster, lcStep, List.filterMap_cons, List.foldl_cons,
      List.foldl_nil, abs_le]

/-- C2 witness: the clustering computed on the spec's concrete example, and
the characterization applied there. -/
theorem C2_fuzzy_consensus_witness :
    fuzzyClusters (1/1000) [26/5, 26/5, 26/5, 18/5] =
      [[26/5, 26/5, 26/5], [18/5]] ∧
    fuzzyConsensus [some (26/5), some (26/5), some (26/5), some (18/5)]
      (1/1000) = some (26/5) := by
  refine ⟨?_, C2_fuzzy_consensus_characterization.2⟩
  norm_num [fuzzyClusters, fuzzyInsert, fuzzy_match_ebitda, List.foldl_cons,
    List.foldl_nil, abs_le]

/-- C3 counterexample: with an outcome whose `raw_ebitda_text` is the
present-but-empty string, the claim's scoring (bonus whenever the field is
present) ranks Vision at `0.9 × 1.2 × 1.1 = 1.188` above LLM's `1.1` and
selects `3.6`, but the code gives the bonus only to truthy raw text, ranks
Vision at `1.08 < 1.1`, and selects LLM's `5`. -/
theorem C3_counterexample :
    claimConfidenceWeighted cexEmptyRaw = some (18/5) ∧
    (confidenceWeighted cexEmptyRaw).1 = some 5 ∧
    (18/5 : ℚ) < 5 := by
  refine ⟨?_, ?_, by norm_num⟩
  · unfold claimConfidenceWeighted
    rw [← foldBest_fst_eq_specBest]
    norm_num [claimCwCandidates, parserWeight, sourceWeight, cexEmptyRaw,
      demoRes, demoOpp, List.filterMap_cons, List.foldl_cons, List.foldl_nil,
      show ¬ (("body" : String) = "attachment") from by decide,
      show ¬ (("Vision" : String) = "LLM") from by decide]
  · unfold confidenceWeighted
    norm_num [cwStep, cwScore, parserWeight, sourceWeight, strTruthy,
      cexEmptyRaw, demoRes, demoOpp, List.foldl_cons, List.foldl_nil,
      show ¬ (("body" : String) = "attachment") from by decide,
      show ¬ (("Vision" : String) = "LLM") from by decide,
      show ¬ (("EBITDA of $5M" : String) = "") from by decide]

/-- C3 (amended): confidence-weighted selection scores every outcome with a
non-null EBITDA as parser weight × source weight × 1.1 when
`raw_ebitda_text` is present and non-empty (else × 1.0), and returns the
value of the first candidate attaining the maximal score — never an average;
on the spec's no-agreement example it selects Vision's 3.6. -/
theorem C3_confidence_weighted :
    (∀ results : List (String × ParserResult),
      (confidenceWeighted results).1 = specBest (cwCandidates results)) ∧
    confidenceWeighted demoNoAgreement = (some (18/5), "Vision") := by
  refine ⟨confidenceWeighted_fst, ?_⟩
  unfold confidenceWeighted
  norm_num [cwStep, cwScore, parserWeight, sourceWeight, strTruthy,
    demoNoAgreement, demoRes, demoOpp, List.foldl_cons, List.foldl_nil,
    show ¬ (("NER" : String) = "LLM") from by decide,
    show ¬ (("NER" : String) = "Vision") from by decide,
    show ¬ (("Vision" : String) = "LLM") from by decide,
    show ¬ (("body" : String) = "attachment") from by decide,
    show ¬ (("raw" : String) = "") from by decide]

/-- C4 counterexample: with zero successful extractors the merged record is
not entirely null — `raw_ebitda_text` carries the label `[unknown]`, so a
selection explanation string is attached. -/
theorem C4_counterexample :
    (combineResults none ([] : List (String × ParserResult))
      "all").raw_ebitda_text = some ("[unknown]") ∧
    ((combineResults none ([] : List (String × ParserResult))
      "all").raw_ebitda_text).isSome = true := by
  have h := (combine_all_none none [] (by intro p hp; cases hp)).2
  constructor
  · rw [h]
    decide
  · rw [h]
    rfl

/-- C4 (amended): with zero successful extractors the merge returns a record
whose every field is null except `raw_ebitda_text`, which is set to
`[unknown]`, and no exception is raised (the combination is a total
function); more generally, whenever every outcome's EBITDA is null the
merged EBITDA is null and the attached label is `[unknown]`. -/
theorem C4_all_null :
    combineResults none [] "all" =
      { raw_ebitda_text := some ("[unknown]") } ∧
    (∀ (hist : Option (List HistRow)) (results : List (String × ParserResult)),
      (∀ p ∈ results, p.2.opportunity.ebitda_millions = none) →
        (combineResults hist results "all").ebitda_millions = none ∧
        (combineResults hist results "all").raw_ebitda_text =
          some ("[unknown]")) := by
  constructor
  · decide
  · intro hist results h
    have hc := combine_all_none hist results h
    refine ⟨hc.1, ?_⟩
    rw [hc.2]
    decide

/-- C4 witness: a concrete outcome list whose only extractor succeeded with
no EBITDA. -/
theorem C4_all_null_witness :
    (demoNullOutcome.all
      (fun p => p.2.opportunity.ebitda_millions == none)) = true ∧
    (combineResults none demoNullOutcome "all").ebitda_millions = none ∧
    (combineResults none demoNullOutcome "all").raw_ebitda_text =
      some ("[unknown]") := by
  have hh : ∀ p ∈ demoNullOutcome, p.2.opportunity.ebitda_millions = none := by
    decide
  exact ⟨by decide, (C4_all_null.2 none demoNullOutcome hh).1,
    (C4_all_null.2 none demoNullOutcome hh).2⟩

/-- With `strategy="historical"` only the historical step and the
unconditional first-available fallback run: the merged EBITDA is the
historical validator's answer when non-null, else the first non-null value. -/
lemma combine_historical_char (hist : Option (List HistRow))
    (results : List (String × ParserResult)) :
    (combineResults hist results "historical").ebitda_millions =
      (match validateAgainstHistorical hist (firstTruthyCompany results)
          (ebitdaValuesOf results) with
      | some v => some v
      | none => ((ebitdaValuesOf results).filterMap id).head?) := by
  unfold combineResults
  dsimp only
  have hs1 : ¬ (("historical" : String) = "all" ∨
      ("historical" : String) = "fuzzy") := by decide
  have hs2 : ¬ (("historical" : String) = "all" ∨
      ("historical" : String) = "majority") := by decide
  have hs3 : ¬ (("historical" : String) = "all" ∨
      ("historical" : String) = "weighted") := by decide
  have hs4 : ¬ (("historical" : String) = "all" ∨
      ("historical" : String) = "prioritized") := by decide
  have hs5 : (("historical" : String) = "all" ∨
      ("historical" : String) = "historical") := by decide
  cases hv : validateAgainstHistorical hist (firstTruthyCompany results)
      (ebitdaValuesOf results) with
  | some v => simp [hs1, hs2, hs3, hs4, hs5, hv]
  | none =>
    cases hh : ((ebitdaValuesOf results).filterMap id).head? with
    | some u => simp [hs1, hs2, hs3, hs4, hs5, hv, hh]
    | none => simp [hs1, hs2, hs3, hs4, hs5, hv, hh]

/-- C5 counterexample: the first non-null company name is the empty string;
the claim's lookup (substring match of that name) matches the `Zeta` row with
historical EBITDA 10 and picks the candidate 12, but the code skips the
falsy empty string, looks `Acme` up (historical EBITDA 6.2) and picks 5. -/
theorem C5_counterexample :
    claimFirstCompany cexEmptyCompany = some ("") ∧
    claimHistorical (some cexTable) cexEmptyCompany = some 12 ∧
    (combineResults (some cexTable) cexEmptyCompany
      "historical").ebitda_millions = some 5 ∧
    (5 : ℚ) < 12 := by
  refine ⟨by decide, ?_, ?_, by norm_num⟩
  · have hz : strContainsCI ("Zeta") ("") = true := by decide
    have hlt : |(12 : ℚ) - 10| < |(5 : ℚ) - 10| := by
      norm_num [abs_of_nonneg, abs_of_nonpos]
    unfold claimHistorical claimFirstCompany
    norm_num [cexEmptyCompany, demoRes, demoOpp, cexTable, ebitdaValuesOf,
      List.filterMap_cons, List.filter_cons, hz, parseHistVal, closestStep,
      List.foldl_cons, List.foldl_nil, hlt, abs_of_nonneg, abs_of_nonpos]
  · have hfc : firstTruthyCompany cexEmptyCompany = some ("Acme") := by decide
    have hza : strContainsCI ("Zeta") ("Acme") = false := by decide
    have haa : strContainsCI ("Acme") ("Acme") = true := by decide
    have hlt2 : ¬ (|(12 : ℚ) - 31/5| < |(5 : ℚ) - 31/5|) := by
      norm_num [abs_of_nonneg, abs_of_nonpos]
    have hval : validateAgainstHistorical (some cexTable) (some ("Acme"))
        (ebitdaValuesOf cexEmptyCompany) = some 5 := by
      unfold validateAgainstHistorical
      norm_num [cexTable, cexEmptyCompany, demoRes, demoOpp, ebitdaValuesOf,
        hza, haa, List.filter_cons, parseHistVal, closestStep,
        List.filterMap_cons, List.foldl_cons, List.foldl_nil, hlt2,
        abs_of_nonneg, abs_of_nonpos,
        show ¬ (("Acme" : String) = "") from by decide]
    rw [combine_historical_char, hfc, hval]

/-- C5 (amended): historical validation takes the first truthy (non-null and
non-empty) company name across the outcomes; when a row matches it by
case-insensitive substring containment and its stored EBITDA parses as a
number, the valid candidate numerically closest to the historical value is
returned (7 for candidates [5, 7] against 6.2); an unparseable historical
value such as `n.a.` yields no historical signal, and under
`strategy="historical"` the cascade then proceeds to the first-available
fallback instead of raising. -/
theorem C5_historical_validation :
    (∀ (hist : Option (List HistRow)) (results : List (String × ParserResult)),
      (combineResults hist results "historical").ebitda_millions =
        (match validateAgainstHistorical hist (firstTruthyCompany results)
            (ebitdaValuesOf results) with
        | some v => some v
        | none => ((ebitdaValuesOf results).filterMap id).head?)) ∧
    (∀ (table : List HistRow) (cname : String) (values : List (Option ℚ))
        (row : HistRow) (h : ℚ),
      cname ≠ "" →
      (table.filter (fun r => strContainsCI r.1 cname)).head? = some row →
      parseHistVal row.2 = some h →
      values.filterMap id ≠ [] →
      ∃ v, validateAgainstHistorical (some table) (some cname) values =
          some v ∧ v ∈ values.filterMap id ∧
          ∀ w ∈ values.filterMap id, |v - h| ≤ |w - h|) ∧
    (∀ (table : List HistRow) (cname : String) (values : List (Option ℚ))
        (row : HistRow),
      (table.filter (fun r => strContainsCI r.1 cname)).head? = some row →
      row.2 = HistVal.hstr ("n.a.") →
      validateAgainstHistorical (some table) (some cname) values = none) ∧
    validateAgainstHistorical (some demoTable) (some ("Acme"))
      [some 5, some 7] = some 7 := by
  refine ⟨combine_historical_char, ?_, ?_, ?_⟩
  · intro table cname values row h hc hrow hparse hne
    rcases closest_spec h (values.filterMap id) hne with ⟨r, hr, hrmem, hrall⟩
    refine ⟨r, ?_, hrmem, hrall⟩
    unfold validateAgainstHistorical
    dsimp only
    rw [if_neg hc, hrow]
    dsimp only
    rw [hparse]
    dsimp only
    exact hr
  · intro table cname values row hrow hna
    unfold validateAgainstHistorical
    dsimp only
    by_cases hc : cname = ""
    · rw [if_pos hc]
    · rw [if_neg hc, hrow]
      dsimp only
      rw [hna]
      simp [parseHistVal]
  · have haa : strContainsCI ("Acme Corp") ("Acme") = true := by decide
    unfold validateAgainstHistorical
    norm_num [demoTable, List.filter_cons, haa, parseHistVal, closestStep,
      List.filterMap_cons, List.foldl_cons, List.foldl_nil,
      abs_of_nonneg, abs_of_nonpos,
      show ¬ (("Acme" : String) = "") from by decide]

/-- C5 witness: the closest-match clause instantiated at the `Acme Corp`
table row with historical EBITDA 6.2 and candidates 5 and 7. -/
theorem C5_historical_validation_witness :
    (decide (("Acme" : String) = "")) = false ∧
    ((demoTable.filter (fun r => strContainsCI r.1 ("Acme"))).head? =
      some (("Acme Corp", HistVal.hnum (31/5)) : HistRow)) ∧
    parseHistVal (HistVal.hnum (31/5)) = some (31/5) ∧
    (([some (5:ℚ), some 7] : List (Option ℚ)).filterMap id).isEmpty =
      false ∧
    (validateAgainstHistorical (some demoTable) (some ("Acme"))
      [some 5, some 7]).isSome = true := by
  have haa : strContainsCI ("Acme Corp") ("Acme") = true := by decide
  have h2 : (demoTable.filter (fun r => strContainsCI r.1 ("Acme"))).head? =
      some (("Acme Corp", HistVal.hnum (31/5)) : HistRow) := by
    simp [demoTable, List.filter_cons, haa]
  refine ⟨by decide, h2, rfl, by decide, ?_⟩
  rcases C5_historical_validation.2.1 demoTable ("Acme") [some 5, some 7]
    ("Acme Corp", HistVal.hnum (31/5)) (31/5) (by decide) h2 rfl (by decide)
    with ⟨v, hv, hmem, hall⟩
  rw [hv]
  rfl

/-- C6 counterexample: (a) a non-empty options list whose only option (value
`Paris`) has confidence 0 is bypassed — the scalar fallback `Lyon` is
selected although the options list is non-empty and `Lyon` is no option's
value; (b) with empty options everywhere, the first non-null scalar from a
preferred extractor is the empty string, which the code skips in favour of
`Lyon`. -/
theorem C6_counterexample :
    (fieldCandidates cexZeroConfidence (fun o => o.location_options)).map
      Prod.fst = [some ("Paris")] ∧
    selectBestField cexZeroConfidence (fun o => o.location_options)
      (fun o => o.hq_location) = some ("Lyon") ∧
    (cexEmptyScalar.map (fun p => p.2.opportunity.hq_location)) =
      [some (""), some ("Lyon")] ∧
    (cexEmptyScalar.map (fun p => p.2.opportunity.location_options)) =
      [[], []] ∧
    selectBestField cexEmptyScalar (fun o => o.location_options)
      (fun o => o.hq_location) = some ("Lyon") := by
  refine ⟨?_, ?_, by decide, by decide, ?_⟩
  · simp [fieldCandidates, cexZeroConfidence, demoOppLoc]
  · unfold selectBestField scanOptions
    norm_num [cexZeroConfidence, demoOppLoc, fieldStep, fallbackPreferred,
      fallbackAny, parserWeight, sourceWeight, strTruthy, List.foldl_cons,
      List.foldl_nil, show ¬ (("Lyon" : String) = "") from by decide]
  · unfold selectBestField scanOptions
    norm_num [cexEmptyScalar, demoOppLoc, fieldStep, fallbackPreferred,
      fallbackAny, parserWeight, sourceWeight, strTruthy, List.foldl_cons,
      List.foldl_nil, show ¬ (("Vision" : String) = "LLM") from by decide,
      show ¬ (("Lyon" : String) = "") from by decide]

/-- C6 (amended): for each of the location, company and sector fields the
selected value is the first option attaining the maximal combined score
`parserWeight × sourceWeight × confidence` provided that maximum is strictly
positive and the winning option's value is non-null; otherwise — including
when every options list is empty or every option scores zero — selection
falls back to the first truthy scalar field value from an LLM or Vision
outcome, else from any outcome. -/
theorem C6_field_selection (results : List (String × ParserResult))
    (getOptions : InvestmentOpportunity → List FieldOption)
    (getFallback : InvestmentOpportunity → Option String) :
    selectBestField results getOptions getFallback =
      match specBest (fieldCandidates results getOptions) with
      | some v => some v
      | none => specFallback results getFallback :=
  selectBestField_char results getOptions getFallback

/-- C7: an extractor that raises contributes no outcome — the collected list
is exactly the successes of the remaining extractors, unchanged, and it
reaches the combination step as is; no exception propagates (collection is a
total function).  If its name is not among the other extractors' names it
does not appear in the final outcome list. -/
theorem C7_extractor_isolation (hist : Option (List HistRow))
    (pre post : List (String × Extractor)) (n : String) (bad : Extractor)
    (d : EmailData) (e : String)
    (hfail : bad.extract d = Except.error e) :
    collectResults (pre ++ (n, bad) :: post) d =
      collectResults pre d ++ collectResults post d ∧
    parseData hist (pre ++ (n, bad) :: post) d =
      combineResults hist (collectResults pre d ++ collectResults post d)
        "all" ∧
    (n ∉ pre.map Prod.fst → n ∉ post.map Prod.fst →
      n ∉ (collectResults (pre ++ (n, bad) :: post) d).map Prod.fst) := by
  have hrun : runSingleParser n bad d = none := by
    unfold runSingleParser
    rw [hfail]
  have hsplit : collectResults (pre ++ (n, bad) :: post) d =
      collectResults pre d ++ collectResults post d := by
    unfold collectResults
    rw [List.filterMap_append, List.filterMap_cons]
    simp only [hrun]
  refine ⟨hsplit, ?_, ?_⟩
  · unfold parseData
    rw [hsplit]
  · intro hnpre hnpost hmem
    rw [hsplit, List.map_append] at hmem
    rcases List.mem_append.mp hmem with hm | hm
    · exact hnpre (collect_name_mem pre d n hm)
    · exact hnpost (collect_name_mem post d n hm)

/-- C7 witness: NER and Vision succeed around a raising LLM extractor. -/
theorem C7_extractor_isolation_witness :
    (failExtractor.extract demoEmail = Except.error ("boom")) ∧
    ((demoPre.map Prod.fst).contains ("LLM")) = false ∧
    ((demoPost.map Prod.fst).contains ("LLM")) = false ∧
    (collectResults (demoPre ++ ("LLM", failExtractor) :: demoPost) demoEmail =
      collectResults demoPre demoEmail ++ collectResults demoPost demoEmail) ∧
    (((collectResults (demoPre ++ ("LLM", failExtractor) :: demoPost)
      demoEmail).map Prod.fst).contains ("LLM")) = false := by
  have h := C7_extractor_isolation none demoPre demoPost ("LLM") failExtractor
    demoEmail ("boom") rfl
  refine ⟨rfl, by decide, by decide, h.1, ?_⟩
  have hnot := h.2.2 (by decide) (by decide)
  simpa using hnot

/-- C8: `_combine_results` reads `self.historical_data` and mutates no
engine state, so running the combination twice on the same fixed outcome
list yields an identical merged record and leaves the state unchanged. -/
theorem C8_combine_idempotent (st : EnsembleState)
    (results : List (String × ParserResult)) (strategy : String) :
    (combineResultsS st results strategy).2 = st ∧
    (combineResultsS ((combineResultsS st results strategy).2) results
      strategy).1 = (combineResultsS st results strategy).1 :=
  ⟨rfl, rfl⟩

/-- C9: the combined record's `raw_ebitda_text` is always a non-null
bracketed label, for every strategy and outcome list; when every outcome's
EBITDA is null — including the empty outcome list — the label is
`[unknown]`. -/
theorem C9_label_always_bracketed :
    (∀ (hist : Option (List HistRow)) (results : List (String × ParserResult))
        (strategy : String), ∃ label,
      (combineResults hist results strategy).raw_ebitda_text =
        some ("[" ++ label ++ "]")) ∧
    (∀ (hist : Option (List HistRow)) (results : List (String × ParserResult)),
      (∀ p ∈ results, p.2.opportunity.ebitda_millions = none) →
        (combineResults hist results "all").raw_ebitda_text =
          some ("[unknown]")) ∧
    (combineResults none [] "all").raw_ebitda_text = some ("[unknown]") := by
  refine ⟨?_, ?_, ?_⟩
  · intro hist results strategy
    unfold combineResults
    exact ⟨_, rfl⟩
  · intro hist results h
    rw [(combine_all_none hist results h).2]
    decide
  · rw [(combine_all_none none [] (by intro p hp; cases hp)).2]
    decide

/-- C9 witness: the all-null-EBITDA hypothesis discharged at the empty
outcome list. -/
theorem C9_label_witness :
    (([] : List (String × ParserResult)).all
      (fun p => p.2.opportunity.ebitda_millions == none)) = true ∧
    (combineResults none [] "all").raw_ebitda_text = some ("[unknown]") := by
  constructor
  · rfl
  · exact C9_label_always_bracketed.2.1 none [] (by intro p hp; cases hp)

/-- C10: a scored option whose combined score is 0 can never be selected:
whenever the option scan returns a value its score is strictly positive, and
when every offered option scores 0 the selection equals the scalar-field
fallback even though the options lists may be non-empty. -/
theorem C10_zero_score_never_selected :
    (∀ (results : List (String × ParserResult))
        (getOptions : InvestmentOpportunity → List FieldOption),
      ((scanOptions results getOptions).1).isSome = true →
        0 < (scanOptions results getOptions).2) ∧
    (∀ (results : List (String × ParserResult))
        (getOptions : InvestmentOpportunity → List FieldOption)
        (getFallback : InvestmentOpportunity → Option String),
      (∀ c ∈ fieldCandidates results getOptions, c.2 = 0) →
        selectBestField results getOptions getFallback =
          specFallback results getFallback) := by
  constructor
  · intro results getOptions hs
    rw [scanOptions_snd]
    by_contra hng
    have h1 : (scanOptions results getOptions).1 = none := by
      rw [scanOptions_fst]
      unfold specBest
      rw [if_neg hng]
    rw [h1] at hs
    cases hs
  · intro results getOptions getFallback hz
    rw [selectBestField_char]
    have hM : maxScore (fieldCandidates results getOptions) = 0 := by
      unfold maxScore
      rcases foldl_max_eq_or_mem
        ((fieldCandidates results getOptions).map Prod.snd) 0 with h0 | hm
      · exact h0
      · rcases List.mem_map.mp hm with ⟨c, hc, hcs⟩
        rw [← hcs]
        exact hz c hc
    have hb : specBest (fieldCandidates results getOptions) = none := by
      unfold specBest
      rw [hM]
      exact if_neg (lt_irrefl 0)
    rw [hb]

/-- C10 witness: a full-confidence option is selected with positive score,
and a zero-confidence option forces the fallback. -/
theorem C10_zero_score_witness :
    ((scanOptions demoConfident (fun o => o.location_options)).1.isSome =
      true) ∧
    (0 < (scanOptions demoConfident (fun o => o.location_options)).2) ∧
    ((fieldCandidates cexZeroConfidence (fun o => o.location_options)).map
      Prod.snd = [0]) ∧
    (selectBestField cexZeroConfidence (fun o => o.location_options)
      (fun o => o.hq_location) =
      specFallback cexZeroConfidence (fun o => o.hq_location)) := by
  have hsome : ((scanOptions demoConfident
      (fun o => o.location_options)).1).isSome = true := by
    unfold scanOptions
    norm_num [demoConfident, demoOppLoc, fieldStep, parserWeight,
      sourceWeight, List.foldl_cons, List.foldl_nil,
      show ¬ (("body" : String) = "attachment") from by decide]
  have hzero : ∀ c ∈ fieldCandidates cexZeroConfidence
      (fun o => o.location_options), c.2 = 0 := by
    intro c hc
    simp [fieldCandidates, cexZeroConfidence, demoOppLoc] at hc
    simp [hc]
  have hmapz : (fieldCandidates cexZeroConfidence
      (fun o => o.location_options)).map Prod.snd = [0] := by
    simp [fieldCandidates, cexZeroConfidence, demoOppLoc]
  exact ⟨hsome,
    C10_zero_score_never_selected.1 demoConfident (fun o => o.location_options)
      hsome,
    hmapz,
    C10_zero_score_never_selected.2 cexZeroConfidence
      (fun o => o.location_options) (fun o => o.hq_location) hzero⟩
